import Mathlib

/-!
Shallow embedding of the moving-average crossover trading simulator
(`trading_simulator/app.py`).

Monetary amounts, prices and quantities (Python floats) are modelled as
rationals; timestamps as naturals (ISO-8601 strings of increasing instants
compare the same way).  The three SQLite tables are modelled as lists:
`prices` as a list of `PriceRow` (the `INSERT OR REPLACE` upsert deletes the
conflicting row and appends the new one), `portfolio` as an association list
`List (String × ℚ)`, and `trades` as an append-only list of `Trade` records.
`ORDER BY timestamp DESC` is modelled by `List.insertionSort` on `≥` of the
timestamp, which is a faithful model because the `(timestamp, symbol)`
primary key makes per-symbol timestamps distinct.
-/

namespace TradingSim

/-- One row of the `prices` table: `(timestamp, symbol, price)`,
primary key `(timestamp, symbol)`. -/
structure PriceRow where
  ts : ℕ
  symbol : String
  price : ℚ
  deriving DecidableEq

/-- `_store_price`: `INSERT OR REPLACE` keyed by `(timestamp, symbol)` —
the conflicting row (if any) is removed and the new row inserted. -/
def storePrice (rows : List PriceRow) (t : ℕ) (symbol : String) (price : ℚ) :
    List PriceRow :=
  rows.filter (fun r => !(r.ts == t && r.symbol == symbol)) ++ [⟨t, symbol, price⟩]

/-- `SELECT price FROM prices WHERE timestamp = t AND symbol = s`. -/
def lookupPrice (rows : List PriceRow) (t : ℕ) (symbol : String) : Option ℚ :=
  (rows.find? (fun r => r.ts == t && r.symbol == symbol)).map (fun r => r.price)

/-- `ORDER BY timestamp DESC`. -/
def sortDescByTs (l : List PriceRow) : List PriceRow :=
  List.insertionSort (fun a b => b.ts ≤ a.ts) l

/-- Ascending (chronological) ordering by timestamp. -/
def sortAscByTs (l : List PriceRow) : List PriceRow :=
  List.insertionSort (fun a b => a.ts ≤ b.ts) l

/-- `_get_recent_prices`: `SELECT price WHERE symbol = ? ORDER BY timestamp
DESC LIMIT periods`, then reversed into chronological order. -/
def getRecentPrices (rows : List PriceRow) (symbol : String) (periods : ℕ) :
    List ℚ :=
  (((sortDescByTs (rows.filter (fun r => r.symbol == symbol))).take
      periods).reverse).map (fun r => r.price)

/-- One row of the `trades` table (the autoincrement id is the position in
the list). -/
structure Trade where
  ts : ℕ
  symbol : String
  action : String
  price : ℚ
  quantity : ℚ
  balance : ℚ
  deriving DecidableEq

/-- `_get_portfolio_quantity`: the symbol's row's quantity, or `0` when the
row is absent. -/
def getPortfolioQuantity (portfolio : List (String × ℚ)) (symbol : String) : ℚ :=
  match portfolio.find? (fun r => r.1 == symbol) with
  | some r => r.2
  | none => 0

/-- `_update_portfolio_quantity`: `DELETE` the row when the quantity is `0`,
else `INSERT OR REPLACE` (remove the old row, insert the new one). -/
def updatePortfolioQuantity (portfolio : List (String × ℚ)) (symbol : String)
    (quantity : ℚ) : List (String × ℚ) :=
  if quantity = 0 then portfolio.filter (fun r => !(r.1 == symbol))
  else portfolio.filter (fun r => !(r.1 == symbol)) ++ [(symbol, quantity)]

/-- The configuration fields of `TradingSimulator.__init__` that the engine
reads. -/
structure SimConfig where
  short_ma : ℕ
  long_ma : ℕ
  position_size_fraction : ℚ

/-- The persisted database state: `prices`, `cash.balance`, `portfolio`,
`trades`. -/
structure SimState where
  prices : List PriceRow
  cash : ℚ
  portfolio : List (String × ℚ)
  trades : List Trade
  deriving DecidableEq

/-- `_execute_trade`: BUY spends `cash × position_size_fraction` (skipped
below the `0.0001` minimum); SELL liquidates the whole position when it is
positive; anything else is a no-op. -/
def executeTrade (cfg : SimConfig) (st : SimState) (symbol action : String)
    (price : ℚ) (ts : ℕ) : SimState :=
  let cash := st.cash
  let quantity_owned := getPortfolioQuantity st.portfolio symbol
  if action = "BUY" then
    let spend := cash * cfg.position_size_fraction
    if spend < 0.0001 then st
    else
      let qty := spend / price
      let new_cash := cash - spend
      let new_qty := quantity_owned + qty
      { st with cash := new_cash,
                portfolio := updatePortfolioQuantity st.portfolio symbol new_qty,
                trades := st.trades ++ [⟨ts, symbol, action, price, qty, new_cash⟩] }
  else if action = "SELL" ∧ quantity_owned > 0 then
    let qty := quantity_owned
    let proceeds := qty * price
    let new_cash := cash + proceeds
    { st with cash := new_cash,
              portfolio := updatePortfolioQuantity st.portfolio symbol 0,
              trades := st.trades ++ [⟨ts, symbol, action, price, -qty, new_cash⟩] }
  else st

/-- The sequence of persisted database states during one `_execute_trade`
call: each `conn.commit()` inside `_update_cash_balance`,
`_update_portfolio_quantity` and `_log_trade` is a separate SQLite
transaction, so each makes one more snapshot durable and observable. -/
def executeTradeTrace (cfg : SimConfig) (st : SimState) (symbol action : String)
    (price : ℚ) (ts : ℕ) : List SimState :=
  let cash := st.cash
  let quantity_owned := getPortfolioQuantity st.portfolio symbol
  if action = "BUY" then
    let spend := cash * cfg.position_size_fraction
    if spend < 0.0001 then [st]
    else
      let qty := spend / price
      let new_cash := cash - spend
      let new_qty := quantity_owned + qty
      let st₁ := { st with cash := new_cash }
      let st₂ := { st₁ with
        portfolio := updatePortfolioQuantity st.portfolio symbol new_qty }
      let st₃ := { st₂ with
        trades := st.trades ++ [⟨ts, symbol, action, price, qty, new_cash⟩] }
      [st, st₁, st₂, st₃]
  else if action = "SELL" ∧ quantity_owned > 0 then
    let qty := quantity_owned
    let proceeds := qty * price
    let new_cash := cash + proceeds
    let st₁ := { st with cash := new_cash }
    let st₂ := { st₁ with
      portfolio := updatePortfolioQuantity st.portfolio symbol 0 }
    let st₃ := { st₂ with
      trades := st.trades ++ [⟨ts, symbol, action, price, -qty, new_cash⟩] }
    [st, st₁, st₂, st₃]
  else [st]

/-- The trade signal of the spec's `SignalDetector`. -/
inductive Signal where
  | BUY
  | SELL
  | HOLD
  deriving DecidableEq

/-- Python `l[-k:]` (for `k ≥ 1`): the last `k` elements (all of them when
`k ≥ l.length`, matching Python's index clamping). -/
def lastN (l : List ℚ) (k : ℕ) : List ℚ :=
  l.drop (l.length - k)

/-- The decision core of `_evaluate_strategy`: with fewer than
`long_ma + 1` prices, hold; otherwise compare the short/long moving
averages one step ago (`prices[-(w+1):-1]`) and now (`prices[-w:]`). -/
def evaluateSignal (short_ma long_ma : ℕ) (prices : List ℚ) : Signal :=
  if prices.length < long_ma + 1 then .HOLD
  else
    let short_ma_old := (lastN prices.dropLast short_ma).sum / (short_ma : ℚ)
    let long_ma_old := (lastN prices.dropLast long_ma).sum / (long_ma : ℚ)
    let short_ma_new := (lastN prices short_ma).sum / (short_ma : ℚ)
    let long_ma_new := (lastN prices long_ma).sum / (long_ma : ℚ)
    if short_ma_old ≤ long_ma_old ∧ short_ma_new > long_ma_new then .BUY
    else if short_ma_old ≥ long_ma_old ∧ short_ma_new < long_ma_new then .SELL
    else .HOLD

/-- `_evaluate_strategy`: fetch the `long_ma + 1` most recent prices,
evaluate the crossover rule, and execute the resulting trade (if any) at
the most recent price. -/
def evaluateStrategy (cfg : SimConfig) (st : SimState) (symbol : String)
    (ts : ℕ) : SimState :=
  let prices := getRecentPrices st.prices symbol (cfg.long_ma + 1)
  match evaluateSignal cfg.short_ma cfg.long_ma prices with
  | .BUY => executeTrade cfg st symbol "BUY" (prices.getLast?.getD 0) ts
  | .SELL => executeTrade cfg st symbol "SELL" (prices.getLast?.getD 0) ts
  | .HOLD => st

/-- One trade-execution request: `(symbol, action, price, timestamp)`. -/
def runTrades (cfg : SimConfig) (st : SimState)
    (ops : List (String × String × ℚ × ℕ)) : SimState :=
  ops.foldl (fun s o => executeTrade cfg s o.1 o.2.1 o.2.2.1 o.2.2.2) st

/-- The account-state invariant of the spec: nonnegative cash, and every
stored holding row has a nonnegative, nonzero quantity. -/
def Invariant (st : SimState) : Prop :=
  0 ≤ st.cash ∧ ∀ r ∈ st.portfolio, 0 ≤ r.2 ∧ r.2 ≠ 0

/-- Written to the spec's words for `recentPrices` (§4.1): the up-to-`count`
most recent observations for the symbol, i.e. the last `count` elements of
the chronologically (ascending-timestamp) sorted per-symbol series, oldest
first.  Compared against `getRecentPrices`, which embeds the code. -/
def specRecentPrices (rows : List PriceRow) (symbol : String) (count : ℕ) :
    List ℚ :=
  let chron := sortAscByTs (rows.filter (fun r => r.symbol == symbol))
  (chron.drop (chron.length - count)).map (fun r => r.price)

/-- The arithmetic mean of a price window, as the spec's glossary defines a
simple moving average (the code divides by the configured window length
instead; the C1 theorem shows the two agree on full windows). -/
def sliceMean (l : List ℚ) : ℚ :=
  l.sum / (l.length : ℚ)

/-! ### Helper lemmas -/

theorem length_lastN (l : List ℚ) (k : ℕ) (h : k ≤ l.length) :
    (lastN l k).length = k := by
  simp [lastN]
  omega

theorem sliceMean_lastN (l : List ℚ) (k : ℕ) (h : k ≤ l.length) :
    sliceMean (lastN l k) = (lastN l k).sum / (k : ℚ) := by
  rw [sliceMean, length_lastN l k h]

theorem find?_filter_not {α : Type} (p : α → Bool) (l : List α) :
    (l.filter (fun x => !p x)).find? p = none := by
  induction l with
  | nil => rfl
  | cons a t ih =>
    by_cases h : p a = true
    · simp [List.filter_cons, h, ih]
    · simp [List.filter_cons, h, ih]

theorem getPortfolioQuantity_update (portfolio : List (String × ℚ))
    (symbol : String) (q : ℚ) :
    getPortfolioQuantity (updatePortfolioQuantity portfolio symbol q) symbol = q := by
  unfold getPortfolioQuantity updatePortfolioQuantity
  by_cases hq : q = 0
  · rw [if_pos hq, find?_filter_not (fun r : String × ℚ => r.1 == symbol)]
    exact hq.symm
  · rw [if_neg hq, List.find?_append, find?_filter_not (fun r : String × ℚ => r.1 == symbol)]
    simp

theorem find?_update_zero (portfolio : List (String × ℚ)) (symbol : String) :
    (updatePortfolioQuantity portfolio symbol 0).find? (fun r => r.1 == symbol)
      = none := by
  unfold updatePortfolioQuantity
  rw [if_pos rfl]
  exact find?_filter_not _ _

theorem getPortfolioQuantity_nonneg (portfolio : List (String × ℚ))
    (symbol : String) (h : ∀ r ∈ portfolio, 0 ≤ r.2 ∧ r.2 ≠ 0) :
    0 ≤ getPortfolioQuantity portfolio symbol := by
  unfold getPortfolioQuantity
  cases hf : portfolio.find? (fun r => r.1 == symbol) with
  | none => exact le_refl 0
  | some r => exact (h r (List.mem_of_find?_eq_some hf)).1

/-! ### Claims -/

/-- C7: a BUY whose spend `cash × position_size_fraction` is strictly below
the `0.0001` minimum trade threshold is a total no-op: the state (cash,
every holding, trade ledger) is returned unchanged. -/
theorem buy_below_minimum_is_noop (cfg : SimConfig) (st : SimState)
    (symbol : String) (price : ℚ) (ts : ℕ)
    (h : st.cash * cfg.position_size_fraction < 0.0001) :
    executeTrade cfg st symbol "BUY" price ts = st := by
  simp [executeTrade, h]

theorem buy_below_minimum_is_noop_witness :
    ((1/1000 : ℚ) * (1/20) < 0.0001) ∧
      executeTrade ⟨5, 20, 1/20⟩ ⟨[], 1/1000, [], []⟩ "BTCUSDT" "BUY" 100 0
        = ⟨[], 1/1000, [], []⟩ :=
  ⟨by norm_num,
   buy_below_minimum_is_noop ⟨5, 20, 1/20⟩ ⟨[], 1/1000, [], []⟩ "BTCUSDT" 100 0
     (by norm_num)⟩

/-- C10: executing a trade with any action other than `"BUY"` and `"SELL"`
falls through both branches of `_execute_trade` and is a total no-op. -/
theorem other_action_is_noop (cfg : SimConfig) (st : SimState)
    (symbol action : String) (price : ℚ) (ts : ℕ)
    (h1 : action ≠ "BUY") (h2 : action ≠ "SELL") :
    executeTrade cfg st symbol action price ts = st := by
  simp [executeTrade, h1, h2]

theorem other_action_is_noop_witness :
    (("HOLD" : String) ≠ "BUY") ∧ (("HOLD" : String) ≠ "SELL") ∧
      executeTrade ⟨5, 20, 1/20⟩ ⟨[], 10000, [], []⟩ "BTCUSDT" "HOLD" 100 0
        = ⟨[], 10000, [], []⟩ :=
  ⟨by decide, by decide,
   other_action_is_noop ⟨5, 20, 1/20⟩ ⟨[], 10000, [], []⟩ "BTCUSDT" "HOLD" 100 0
     (by decide) (by decide)⟩

/-- C2: a BUY whose spend `cash × position_size_fraction` meets the minimum
threshold debits the cash by exactly the spend, credits the symbol's holding
by exactly `spend / price`, and appends exactly one BUY trade record with
the given price, quantity `spend / price` and the new cash balance. -/
theorem buy_executes_exactly (cfg : SimConfig) (st : SimState)
    (symbol : String) (price : ℚ) (ts : ℕ)
    (h : (0.0001 : ℚ) ≤ st.cash * cfg.position_size_fraction) :
    (executeTrade cfg st symbol "BUY" price ts).cash
        = st.cash - st.cash * cfg.position_size_fraction ∧
    getPortfolioQuantity (executeTrade cfg st symbol "BUY" price ts).portfolio
        symbol
        = getPortfolioQuantity st.portfolio symbol
            + st.cash * cfg.position_size_fraction / price ∧
    (executeTrade cfg st symbol "BUY" price ts).trades
        = st.trades ++ [⟨ts, symbol, "BUY", price,
            st.cash * cfg.position_size_fraction / price,
            st.cash - st.cash * cfg.position_size_fraction⟩] := by
  have h' : ¬ st.cash * cfg.position_size_fraction < 0.0001 := not_lt.mpr h
  refine ⟨?_, ?_, ?_⟩ <;>
    simp [executeTrade, h', getPortfolioQuantity_update]

theorem buy_executes_exactly_witness :
    ((0.0001 : ℚ) ≤ (10000 : ℚ) * (1/20)) ∧
    ((executeTrade ⟨5, 20, 1/20⟩ ⟨[], 10000, [], []⟩ "BTCUSDT" "BUY" 100 0).cash
        = (10000 : ℚ) - 10000 * (1/20) ∧
      getPortfolioQuantity
        (executeTrade ⟨5, 20, 1/20⟩ ⟨[], 10000, [], []⟩ "BTCUSDT" "BUY" 100
          0).portfolio "BTCUSDT"
        = getPortfolioQuantity [] "BTCUSDT" + (10000 : ℚ) * (1/20) / 100 ∧
      (executeTrade ⟨5, 20, 1/20⟩ ⟨[], 10000, [], []⟩ "BTCUSDT" "BUY" 100
          0).trades
        = [] ++ [⟨0, "BTCUSDT", "BUY", 100, (10000 : ℚ) * (1/20) / 100,
            (10000 : ℚ) - 10000 * (1/20)⟩]) ∧
    ((10000 : ℚ) * (1/20) = 500 ∧ (10000 : ℚ) * (1/20) / 100 = 5 ∧
      (10000 : ℚ) - 10000 * (1/20) = 9500) :=
  ⟨by norm_num,
   buy_executes_exactly ⟨5, 20, 1/20⟩ ⟨[], 10000, [], []⟩ "BTCUSDT" 100 0
     (by norm_num),
   by norm_num⟩

/-- C3: a SELL on a positively held symbol liquidates the whole position —
cash grows by exactly `quantity × price`, the holding row is removed (and
the looked-up quantity becomes 0), and exactly one SELL trade record with
quantity `-quantity` and the new balance is appended; a SELL with holding 0
is a silent no-op. -/
theorem sell_liquidates_or_noop (cfg : SimConfig) (st : SimState)
    (symbol : String) (price : ℚ) (ts : ℕ) :
    (0 < getPortfolioQuantity st.portfolio symbol →
      (executeTrade cfg st symbol "SELL" price ts).cash
          = st.cash + getPortfolioQuantity st.portfolio symbol * price ∧
      getPortfolioQuantity
          (executeTrade cfg st symbol "SELL" price ts).portfolio symbol = 0 ∧
      (executeTrade cfg st symbol "SELL" price ts).portfolio.find?
          (fun r => r.1 == symbol) = none ∧
      (executeTrade cfg st symbol "SELL" price ts).trades
          = st.trades ++ [⟨ts, symbol, "SELL", price,
              -(getPortfolioQuantity st.portfolio symbol),
              st.cash + getPortfolioQuantity st.portfolio symbol * price⟩]) ∧
    (getPortfolioQuantity st.portfolio symbol = 0 →
      executeTrade cfg st symbol "SELL" price ts = st) := by
  constructor
  · intro hpos
    refine ⟨?_, ?_, ?_, ?_⟩ <;>
      simp [executeTrade, hpos, getPortfolioQuantity_update, find?_update_zero]
  · intro hzero
    simp [executeTrade, hzero]

theorem sell_liquidates_or_noop_witness :
    ((0 : ℚ) < getPortfolioQuantity [("BTCUSDT", 5)] "BTCUSDT" ∧
      ((executeTrade ⟨5, 20, 1/20⟩ ⟨[], 100, [("BTCUSDT", 5)], []⟩ "BTCUSDT"
          "SELL" 100 0).cash
          = (100 : ℚ) + getPortfolioQuantity [("BTCUSDT", 5)] "BTCUSDT" * 100 ∧
        getPortfolioQuantity
          (executeTrade ⟨5, 20, 1/20⟩ ⟨[], 100, [("BTCUSDT", 5)], []⟩ "BTCUSDT"
            "SELL" 100 0).portfolio "BTCUSDT" = 0 ∧
        (executeTrade ⟨5, 20, 1/20⟩ ⟨[], 100, [("BTCUSDT", 5)], []⟩ "BTCUSDT"
            "SELL" 100 0).portfolio.find? (fun r => r.1 == "BTCUSDT") = none ∧
        (executeTrade ⟨5, 20, 1/20⟩ ⟨[], 100, [("BTCUSDT", 5)], []⟩ "BTCUSDT"
            "SELL" 100 0).trades
          = [] ++ [⟨0, "BTCUSDT", "SELL", 100,
              -(getPortfolioQuantity [("BTCUSDT", 5)] "BTCUSDT"),
              (100 : ℚ) + getPortfolioQuantity [("BTCUSDT", 5)] "BTCUSDT" * 100⟩])) ∧
    (getPortfolioQuantity ([] : List (String × ℚ)) "ETHUSDT" = 0 ∧
      executeTrade ⟨5, 20, 1/20⟩ ⟨[], 100, [], []⟩ "ETHUSDT" "SELL" 100 0
        = ⟨[], 100, [], []⟩) :=
  ⟨⟨by decide,
    (sell_liquidates_or_noop ⟨5, 20, 1/20⟩ ⟨[], 100, [("BTCUSDT", 5)], []⟩
      "BTCUSDT" 100 0).1 (by decide)⟩,
   ⟨by decide,
    (sell_liquidates_or_noop ⟨5, 20, 1/20⟩ ⟨[], 100, [], []⟩ "ETHUSDT" 100
      0).2 (by decide)⟩⟩

/-- C4: with fewer than `long_ma + 1` stored prices the signal is HOLD and
`_evaluate_strategy` executes no trade and mutates nothing. -/
theorem insufficient_history_holds (cfg : SimConfig) (st : SimState)
    (symbol : String) (ts : ℕ)
    (h : (getRecentPrices st.prices symbol (cfg.long_ma + 1)).length
          < cfg.long_ma + 1) :
    (∀ prices : List ℚ, prices.length < cfg.long_ma + 1 →
        evaluateSignal cfg.short_ma cfg.long_ma prices = .HOLD) ∧
    evaluateStrategy cfg st symbol ts = st := by
  have hsig : ∀ prices : List ℚ, prices.length < cfg.long_ma + 1 →
      evaluateSignal cfg.short_ma cfg.long_ma prices = .HOLD := by
    intro prices hp
    simp [evaluateSignal, hp]
  refine ⟨hsig, ?_⟩
  simp only [evaluateStrategy]
  rw [hsig _ h]

theorem insufficient_history_holds_witness :
    ((getRecentPrices ([] : List PriceRow) "BTCUSDT" (20 + 1)).length < 20 + 1) ∧
    ((∀ prices : List ℚ, prices.length < 20 + 1 →
        evaluateSignal 5 20 prices = .HOLD) ∧
      evaluateStrategy ⟨5, 20, 1/20⟩ ⟨[], 10000, [], []⟩ "BTCUSDT" 0
        = ⟨[], 10000, [], []⟩) :=
  ⟨by decide,
   insufficient_history_holds ⟨5, 20, 1/20⟩ ⟨[], 10000, [], []⟩ "BTCUSDT" 0
     (by decide)⟩

/-- C5: the cash and holding mutations of one `_execute_trade` are NOT
atomic — each helper commits its own SQLite transaction, so after the
`_update_cash_balance` commit (trace position 1) the persisted state has the
cash already debited (9500 of 10000) while the holding is still the original
one; the final trace state is the result of `executeTrade`. -/
theorem trade_mutation_not_atomic (cfg : SimConfig) (st : SimState)
    (symbol : String) (price : ℚ) (ts : ℕ)
    (h : (0.0001 : ℚ) ≤ st.cash * cfg.position_size_fraction) :
    ∃ mid : SimState,
      (executeTradeTrace cfg st symbol "BUY" price ts)[1]? = some mid ∧
      mid.cash = st.cash - st.cash * cfg.position_size_fraction ∧
      mid.cash ≠ st.cash ∧
      mid.portfolio = st.portfolio ∧
      mid.trades = st.trades ∧
      (executeTradeTrace cfg st symbol "BUY" price ts).getLast?
        = some (executeTrade cfg st symbol "BUY" price ts) := by
  have h' : ¬ st.cash * cfg.position_size_fraction < 0.0001 := not_lt.mpr h
  have hpos : (0 : ℚ) < st.cash * cfg.position_size_fraction :=
    lt_of_lt_of_le (by norm_num) h
  refine ⟨{ st with cash := st.cash - st.cash * cfg.position_size_fraction },
    ?_, rfl, ?_, rfl, rfl, ?_⟩
  · simp [executeTradeTrace, h']
  · simp only []
    intro heq
    have : st.cash * cfg.position_size_fraction = 0 := by linarith
    exact absurd this (ne_of_gt hpos)
  · simp [executeTradeTrace, executeTrade, h']

theorem trade_mutation_not_atomic_witness :
    ((0.0001 : ℚ) ≤ (10000 : ℚ) * (1/20)) ∧
    (∃ mid : SimState,
      (executeTradeTrace ⟨5, 20, 1/20⟩ ⟨[], 10000, [], []⟩ "BTCUSDT" "BUY"
          100 0)[1]? = some mid ∧
      mid.cash = (10000 : ℚ) - 10000 * (1/20) ∧
      mid.cash ≠ (10000 : ℚ) ∧
      mid.portfolio = [] ∧
      mid.trades = [] ∧
      (executeTradeTrace ⟨5, 20, 1/20⟩ ⟨[], 10000, [], []⟩ "BTCUSDT" "BUY"
          100 0).getLast?
        = some (executeTrade ⟨5, 20, 1/20⟩ ⟨[], 10000, [], []⟩ "BTCUSDT"
            "BUY" 100 0)) :=
  ⟨by norm_num,
   trade_mutation_not_atomic ⟨5, 20, 1/20⟩ ⟨[], 10000, [], []⟩ "BTCUSDT" 100 0
     (by norm_num)⟩

/-- One `_execute_trade` preserves the account invariant when the position
size fraction is in `(0, 1]` and the executed price is positive. -/
theorem executeTrade_preserves_invariant (cfg : SimConfig) (st : SimState)
    (symbol action : String) (price : ℚ) (ts : ℕ)
    (hf0 : 0 < cfg.position_size_fraction) (hf1 : cfg.position_size_fraction ≤ 1)
    (hp : 0 < price) (hinv : Invariant st) :
    Invariant (executeTrade cfg st symbol action price ts) := by
  obtain ⟨hcash, hrows⟩ := hinv
  have hq0 : 0 ≤ getPortfolioQuantity st.portfolio symbol :=
    getPortfolioQuantity_nonneg _ _ hrows
  simp only [executeTrade]
  split_ifs with h1 h2 h3
  · exact ⟨hcash, hrows⟩
  · have hspend : (0.0001 : ℚ) ≤ st.cash * cfg.position_size_fraction :=
      not_lt.mp h2
    have hqty : 0 < getPortfolioQuantity st.portfolio symbol
        + st.cash * cfg.position_size_fraction / price := by
      have h3 : 0 < st.cash * cfg.position_size_fraction / price :=
        div_pos (lt_of_lt_of_le (by norm_num) hspend) hp
      linarith
    constructor
    · have hle : st.cash * cfg.position_size_fraction ≤ st.cash * 1 :=
        mul_le_mul_of_nonneg_left hf1 hcash
      rw [mul_one] at hle
      simp only []
      linarith
    · intro r hr
      simp only [updatePortfolioQuantity, if_neg (ne_of_gt hqty)] at hr
      rcases List.mem_append.mp hr with hr1 | hr2
      · exact hrows r (List.mem_of_mem_filter hr1)
      · rw [List.mem_singleton.mp hr2]
        exact ⟨hqty.le, ne_of_gt hqty⟩
  · constructor
    · have : 0 ≤ getPortfolioQuantity st.portfolio symbol * price :=
        mul_nonneg hq0 hp.le
      simp only []
      linarith
    · intro r hr
      simp only [updatePortfolioQuantity, if_pos rfl] at hr
      exact hrows r (List.mem_of_mem_filter hr)
  · exact ⟨hcash, hrows⟩

/-- Any sequence of `_execute_trade` calls with positive prices preserves
the account invariant. -/
theorem runTrades_preserves_invariant (cfg : SimConfig)
    (hf0 : 0 < cfg.position_size_fraction)
    (hf1 : cfg.position_size_fraction ≤ 1) :
    ∀ (ops : List (String × String × ℚ × ℕ)) (st : SimState),
      (∀ o ∈ ops, 0 < o.2.2.1) → Invariant st →
      Invariant (runTrades cfg st ops) := by
  intro ops
  induction ops with
  | nil => exact fun st _ h => h
  | cons o t ih =>
    intro st hp hinv
    exact ih _ (fun x hx => hp x (List.mem_cons_of_mem _ hx))
      (executeTrade_preserves_invariant cfg st o.1 o.2.1 o.2.2.1 o.2.2.2 hf0
        hf1 (hp o (List.mem_cons_self _ _)) hinv)

/-- C6: starting from nonnegative cash and no holdings, with
`position_size_fraction ∈ (0, 1]` and every executed price positive, every
sequence of trade executions keeps cash nonnegative and every stored holding
row nonnegative and nonzero (zero-quantity rows are removed, not kept). -/
theorem account_invariant_from_start (cfg : SimConfig) (st : SimState)
    (ops : List (String × String × ℚ × ℕ))
    (hf0 : 0 < cfg.position_size_fraction)
    (hf1 : cfg.position_size_fraction ≤ 1)
    (hp : ∀ o ∈ ops, 0 < o.2.2.1)
    (hc : 0 ≤ st.cash) (hport : st.portfolio = []) :
    0 ≤ (runTrades cfg st ops).cash ∧
      ∀ r ∈ (runTrades cfg st ops).portfolio, 0 ≤ r.2 ∧ r.2 ≠ 0 :=
  runTrades_preserves_invariant cfg hf0 hf1 ops st hp
    ⟨hc, by simp [hport]⟩

theorem account_invariant_from_start_witness :
    ((0 : ℚ) < 1/20 ∧ (1/20 : ℚ) ≤ 1 ∧
      (∀ o ∈ ([("BTCUSDT", "BUY", (100 : ℚ), (0 : ℕ)),
          ("BTCUSDT", "SELL", 110, 1)] : List (String × String × ℚ × ℕ)),
        0 < o.2.2.1) ∧
      (0 : ℚ) ≤ (10000 : ℚ) ∧
      (⟨[], 10000, [], []⟩ : SimState).portfolio = []) ∧
    (0 ≤ (runTrades ⟨5, 20, 1/20⟩ ⟨[], 10000, [], []⟩
        [("BTCUSDT", "BUY", 100, 0), ("BTCUSDT", "SELL", 110, 1)]).cash ∧
      ∀ r ∈ (runTrades ⟨5, 20, 1/20⟩ ⟨[], 10000, [], []⟩
          [("BTCUSDT", "BUY", 100, 0), ("BTCUSDT", "SELL", 110, 1)]).portfolio,
        0 ≤ r.2 ∧ r.2 ≠ 0) :=
  ⟨⟨by norm_num, by norm_num, by decide, by norm_num, rfl⟩,
   account_invariant_from_start ⟨5, 20, 1/20⟩ ⟨[], 10000, [], []⟩
     [("BTCUSDT", "BUY", 100, 0), ("BTCUSDT", "SELL", 110, 1)]
     (by norm_num) (by norm_num) (by decide) (by norm_num) rfl⟩

/-- C1: on a window of at least `long_ma + 1` prices, the detector decides
BUY exactly when `shortOld ≤ longOld` and `shortNew > longNew`; decides SELL
exactly when it did not decide BUY and `shortOld ≥ longOld` and
`shortNew < longNew`; and otherwise decides HOLD — where the four
quantities are the means of the windows `prices[-(w+1):-1]` and
`prices[-w:]` (so at `shortOld = longOld` the clause whose second condition
holds wins, and with neither second condition the result is HOLD). -/
theorem signal_crossover_characterization (short_ma long_ma : ℕ)
    (prices : List ℚ) (hsl : short_ma ≤ long_ma)
    (h : long_ma + 1 ≤ prices.length) :
    (evaluateSignal short_ma long_ma prices = .BUY ↔
      (sliceMean (lastN prices.dropLast short_ma)
          ≤ sliceMean (lastN prices.dropLast long_ma) ∧
        sliceMean (lastN prices long_ma) < sliceMean (lastN prices short_ma))) ∧
    (evaluateSignal short_ma long_ma prices = .SELL ↔
      (¬(sliceMean (lastN prices.dropLast short_ma)
            ≤ sliceMean (lastN prices.dropLast long_ma) ∧
          sliceMean (lastN prices long_ma) < sliceMean (lastN prices short_ma)) ∧
        sliceMean (lastN prices.dropLast long_ma)
          ≤ sliceMean (lastN prices.dropLast short_ma) ∧
        sliceMean (lastN prices short_ma) < sliceMean (lastN prices long_ma))) ∧
    (evaluateSignal short_ma long_ma prices = .HOLD ↔
      (¬(sliceMean (lastN prices.dropLast short_ma)
            ≤ sliceMean (lastN prices.dropLast long_ma) ∧
          sliceMean (lastN prices long_ma) < sliceMean (lastN prices short_ma)) ∧
        ¬(sliceMean (lastN prices.dropLast long_ma)
            ≤ sliceMean (lastN prices.dropLast short_ma) ∧
          sliceMean (lastN prices short_ma) < sliceMean (lastN prices long_ma)))) := by
  have h1 : short_ma ≤ prices.dropLast.length := by
    rw [List.length_dropLast]; omega
  have h2 : long_ma ≤ prices.dropLast.length := by
    rw [List.length_dropLast]; omega
  have h3 : short_ma ≤ prices.length := by omega
  have h4 : long_ma ≤ prices.length := by omega
  rw [sliceMean_lastN _ _ h1, sliceMean_lastN _ _ h2, sliceMean_lastN _ _ h3,
    sliceMean_lastN _ _ h4]
  have hlen : ¬ prices.length < long_ma + 1 := not_lt.mpr h
  simp only [evaluateSignal, if_neg hlen, ge_iff_le, gt_iff_lt]
  split_ifs with hb hs <;> refine ⟨?_, ?_, ?_⟩ <;> simp_all

theorem signal_crossover_characterization_witness :
    ((1 ≤ 2) ∧ (2 + 1 ≤ ([(1 : ℚ), 2, 3]).length)) ∧
    ((evaluateSignal 1 2 [(1 : ℚ), 2, 3] = .BUY ↔
      (sliceMean (lastN ([(1 : ℚ), 2, 3]).dropLast 1)
          ≤ sliceMean (lastN ([(1 : ℚ), 2, 3]).dropLast 2) ∧
        sliceMean (lastN [(1 : ℚ), 2, 3] 2)
          < sliceMean (lastN [(1 : ℚ), 2, 3] 1))) ∧
    (evaluateSignal 1 2 [(1 : ℚ), 2, 3] = .SELL ↔
      (¬(sliceMean (lastN ([(1 : ℚ), 2, 3]).dropLast 1)
            ≤ sliceMean (lastN ([(1 : ℚ), 2, 3]).dropLast 2) ∧
          sliceMean (lastN [(1 : ℚ), 2, 3] 2)
            < sliceMean (lastN [(1 : ℚ), 2, 3] 1)) ∧
        sliceMean (lastN ([(1 : ℚ), 2, 3]).dropLast 2)
          ≤ sliceMean (lastN ([(1 : ℚ), 2, 3]).dropLast 1) ∧
        sliceMean (lastN [(1 : ℚ), 2, 3] 1)
          < sliceMean (lastN [(1 : ℚ), 2, 3] 2))) ∧
    (evaluateSignal 1 2 [(1 : ℚ), 2, 3] = .HOLD ↔
      (¬(sliceMean (lastN ([(1 : ℚ), 2, 3]).dropLast 1)
            ≤ sliceMean (lastN ([(1 : ℚ), 2, 3]).dropLast 2) ∧
          sliceMean (lastN [(1 : ℚ), 2, 3] 2)
            < sliceMean (lastN [(1 : ℚ), 2, 3] 1)) ∧
        ¬(sliceMean (lastN ([(1 : ℚ), 2, 3]).dropLast 2)
            ≤ sliceMean (lastN ([(1 : ℚ), 2, 3]).dropLast 1) ∧
          sliceMean (lastN [(1 : ℚ), 2, 3] 1)
            < sliceMean (lastN [(1 : ℚ), 2, 3] 2))))) :=
  ⟨⟨by norm_num, by decide⟩,
   signal_crossover_characterization 1 2 [(1 : ℚ), 2, 3] (by norm_num)
     (by decide)⟩

/-- The number of prices `_get_recent_prices` returns is the smaller of the
requested count and the number of observations stored for the symbol. -/
theorem length_getRecentPrices (rows : List PriceRow) (sym : String) (cnt : ℕ) :
    (getRecentPrices rows sym cnt).length
      = min cnt (rows.filter (fun r => r.symbol == sym)).length := by
  simp [getRecentPrices, sortDescByTs, List.length_insertionSort]

/-- C8: `_store_price` is an idempotent upsert keyed by
`(timestamp, symbol)`: re-recording at the same key equals a single record
of the later price, the stored price at the key is the later one, and the
`recentPrices` count for any symbol and any requested count is unchanged by
the repeated write. -/
theorem record_is_idempotent_upsert (rows : List PriceRow) (t : ℕ)
    (symbol : String) (p p' : ℚ) (sym : String) (cnt : ℕ) :
    storePrice (storePrice rows t symbol p) t symbol p'
        = storePrice rows t symbol p' ∧
    lookupPrice (storePrice (storePrice rows t symbol p) t symbol p') t symbol
        = some p' ∧
    (getRecentPrices (storePrice (storePrice rows t symbol p) t symbol p') sym
        cnt).length
      = (getRecentPrices (storePrice rows t symbol p) sym cnt).length := by
  have hstore : storePrice (storePrice rows t symbol p) t symbol p'
      = storePrice rows t symbol p' := by
    simp [storePrice, List.filter_append, List.filter_filter]
  refine ⟨hstore, ?_, ?_⟩
  · rw [hstore]
    simp only [lookupPrice, storePrice, List.find?_append,
      find?_filter_not (fun r : PriceRow => r.ts == t && r.symbol == symbol)]
    simp [List.find?_cons_of_pos]
  · rw [hstore, length_getRecentPrices, length_getRecentPrices]
    simp only [storePrice, List.filter_append]
    by_cases hsym : symbol == sym <;>
      simp [List.filter_cons, hsym]

/-- Distinct `(timestamp, symbol)` keys (the `prices` primary key) make the
timestamps of any one symbol's rows distinct. -/
theorem ts_nodup_of_key_nodup (rows : List PriceRow) (sym : String)
    (h : (rows.map (fun r => (r.ts, r.symbol))).Nodup) :
    ((rows.filter (fun r => r.symbol == sym)).map (fun r => r.ts)).Nodup := by
  have hsub : ((rows.filter (fun r => r.symbol == sym)).map
      (fun r => (r.ts, r.symbol))).Nodup :=
    (((List.filter_sublist rows).map _)).nodup h
  have hp : (rows.filter (fun r => r.symbol == sym)).Pairwise
      (fun a b => (a.ts, a.symbol) ≠ (b.ts, b.symbol)) :=
    List.pairwise_map.mp hsub
  refine List.pairwise_map.mpr (hp.imp_of_mem ?_)
  intro a b ha hb hne hts
  have hsa : a.symbol = sym := by
    simpa using (List.mem_filter.mp ha).2
  have hsb : b.symbol = sym := by
    simpa using (List.mem_filter.mp hb).2
  exact hne (by rw [hts, hsa, hsb])

/-- With distinct timestamps, sorting descending (`ORDER BY timestamp
DESC`) is the reverse of sorting ascending (chronological order). -/
theorem sortDesc_eq_reverse_sortAsc (l : List PriceRow)
    (h : (l.map (fun r => r.ts)).Nodup) :
    sortDescByTs l = (sortAscByTs l).reverse := by
  haveI : IsTotal PriceRow (fun a b => b.ts ≤ a.ts) :=
    ⟨fun a b => le_total b.ts a.ts⟩
  haveI : IsTrans PriceRow (fun a b => b.ts ≤ a.ts) :=
    ⟨fun _ _ _ hab hbc => le_trans hbc hab⟩
  haveI : IsTotal PriceRow (fun a b => a.ts ≤ b.ts) :=
    ⟨fun a b => le_total a.ts b.ts⟩
  haveI : IsTrans PriceRow (fun a b => a.ts ≤ b.ts) :=
    ⟨fun _ _ _ hab hbc => le_trans hab hbc⟩
  haveI : IsAntisymm PriceRow (fun a b => b.ts < a.ts) :=
    ⟨fun _ _ hab hba => absurd (hab.trans hba) (lt_irrefl _)⟩
  have perm1 : (sortDescByTs l).Perm l := List.perm_insertionSort _ l
  have perm2 : (sortAscByTs l).Perm l := List.perm_insertionSort _ l
  have permAll : (sortDescByTs l).Perm ((sortAscByTs l).reverse) :=
    perm1.trans (perm2.symm.trans ((sortAscByTs l).reverse_perm).symm)
  have nd1 : ((sortDescByTs l).map (fun r => r.ts)).Nodup :=
    ((perm1.map (fun r => r.ts)).symm).nodup h
  have nd2 : ((sortAscByTs l).map (fun r => r.ts)).Nodup :=
    ((perm2.map (fun r => r.ts)).symm).nodup h
  have ne1 : (sortDescByTs l).Pairwise (fun a b => a.ts ≠ b.ts) :=
    List.pairwise_map.mp nd1
  have ne2 : (sortAscByTs l).Pairwise (fun a b => a.ts ≠ b.ts) :=
    List.pairwise_map.mp nd2
  have s1 : (sortDescByTs l).Pairwise (fun a b => b.ts < a.ts) :=
    ((List.sorted_insertionSort _ l).and ne1).imp
      (fun hab => lt_of_le_of_ne hab.1 (Ne.symm hab.2))
  have s2asc : (sortAscByTs l).Pairwise (fun a b => a.ts < b.ts) :=
    ((List.sorted_insertionSort _ l).and ne2).imp
      (fun hab => lt_of_le_of_ne hab.1 hab.2)
  have s2 : ((sortAscByTs l).reverse).Pairwise (fun a b => b.ts < a.ts) :=
    List.pairwise_reverse.mpr s2asc
  exact List.eq_of_perm_of_sorted permAll s1 s2

/-- `_store_price` preserves the primary-key property of the `prices`
table, so the distinct-keys hypothesis of the C9 theorem holds for every
store the simulator can actually build. -/
theorem storePrice_preserves_key_nodup (rows : List PriceRow) (t : ℕ)
    (symbol : String) (p : ℚ)
    (h : (rows.map (fun r => (r.ts, r.symbol))).Nodup) :
    ((storePrice rows t symbol p).map (fun r => (r.ts, r.symbol))).Nodup := by
  simp only [storePrice, List.map_append]
  rw [List.nodup_append]
  refine ⟨((List.filter_sublist rows).map _).nodup h, by simp, ?_⟩
  intro a ha hb
  simp only [List.map_cons, List.map_nil, List.mem_singleton] at hb
  obtain ⟨r, hr, hkey⟩ := List.mem_map.mp ha
  have hpred := (List.mem_filter.mp hr).2
  rw [hb] at hkey
  have hts : r.ts = t := congrArg Prod.fst hkey
  have hsym : r.symbol = symbol := congrArg Prod.snd hkey
  simp [hts, hsym] at hpred

/-- C9: for every symbol and count, `_get_recent_prices` returns, without
error, exactly the prices of the at most `count` most recently timestamped
observations of the symbol in chronological (oldest-first) order — the
last `count` elements of the ascending-timestamp series — and when fewer
observations exist it returns all of them (`min count stored`). -/
theorem recent_prices_chronological (rows : List PriceRow) (sym : String)
    (cnt : ℕ) (hWF : (rows.map (fun r => (r.ts, r.symbol))).Nodup) :
    getRecentPrices rows sym cnt = specRecentPrices rows sym cnt ∧
    (getRecentPrices rows sym cnt).length
      = min cnt (rows.filter (fun r => r.symbol == sym)).length := by
  refine ⟨?_, length_getRecentPrices rows sym cnt⟩
  have hnd := ts_nodup_of_key_nodup rows sym hWF
  unfold getRecentPrices specRecentPrices
  rw [sortDesc_eq_reverse_sortAsc _ hnd,
    ← List.rtake_eq_reverse_take_reverse]
  simp [List.rtake]

theorem recent_prices_chronological_witness :
    (([⟨0, "AAA", 1⟩, ⟨2, "AAA", 3⟩, ⟨1, "BBB", 5⟩] : List PriceRow).map
        (fun r => (r.ts, r.symbol))).Nodup ∧
    (getRecentPrices [⟨0, "AAA", 1⟩, ⟨2, "AAA", 3⟩, ⟨1, "BBB", 5⟩] "AAA" 1
        = specRecentPrices [⟨0, "AAA", 1⟩, ⟨2, "AAA", 3⟩, ⟨1, "BBB", 5⟩] "AAA"
            1 ∧
      (getRecentPrices [⟨0, "AAA", 1⟩, ⟨2, "AAA", 3⟩, ⟨1, "BBB", 5⟩] "AAA"
          1).length
        = min 1 (([⟨0, "AAA", 1⟩, ⟨2, "AAA", 3⟩, ⟨1, "BBB", 5⟩] :
            List PriceRow).filter (fun r => r.symbol == "AAA")).length) :=
  ⟨by decide,
   recent_prices_chronological [⟨0, "AAA", 1⟩, ⟨2, "AAA", 3⟩, ⟨1, "BBB", 5⟩]
     "AAA" 1 (by decide)⟩

end TradingSim
